import Mathlib

/-!
Verification of the litter-robot presence detector
(`esphome/components/litter_robot_presence_detector`).

The C++ component classifies camera frames into three classes
(class indices 0, 1, 2, labelled empty / nachi / ngao), smooths the
per-frame classifications with either a sliding majority vote over a
circular buffer of size `PREDICTION_HISTORY_SIZE = 7` or an exponential
moving average with `ema_alpha = 0.2`, and publishes the stable label
through a decoupled pending-result flag polled by `loop()`.

Every definition below is a shallow embedding of the corresponding C++
function; machine bytes are modelled as `Nat` with explicit `% 256`
where the C++ uses `uint8_t` arithmetic, and the C++ `double`
accumulators of the EMA variant are modelled as exact rationals.
-/

/-- Unrolled form of the 3-way argmax scan used by both
`get_prediction_result` and `decide_state` (`for i in 1..2, if s[i] >
s[max] then max := i`): strict `>` means the earliest (lowest) index
wins ties. -/
def argmax3 (c0 c1 c2 : Nat) : Nat :=
  if c2 > (if c1 > c0 then c1 else c0) then 2
  else if c1 > c0 then 1 else 0

/-- Specification-side definition: the lowest class index among {0,1,2}
attaining the maximal value ("ties broken toward the lowest class
index"). -/
def specLeastArgmax (c0 c1 c2 : Nat) : Nat :=
  if c0 ≥ c1 ∧ c0 ≥ c2 then 0
  else if c1 ≥ c2 then 1 else 2

/-- Embedding of `LitterRobotPresenceDetector::get_prediction_result`:
reads the three per-class scores from the output tensor and returns the
argmax-scan result. -/
def get_prediction_result (empty_score nachi_score ngao_score : Nat) : Nat :=
  argmax3 empty_score nachi_score ngao_score

theorem argmax3_eq_specLeastArgmax (c0 c1 c2 : Nat) :
    argmax3 c0 c1 c2 = specLeastArgmax c0 c1 c2 := by
  unfold argmax3 specLeastArgmax
  split_ifs <;> omega

theorem argmax3_lt_three (c0 c1 c2 : Nat) : argmax3 c0 c1 c2 < 3 := by
  unfold argmax3
  split_ifs <;> omega

/-- C5: the classification extractor returns the index of the maximum
score and breaks ties by preferring the lowest class index (first-seen
wins); being a pure function of the score vector, identical score
vectors always yield the same returned index. -/
theorem get_prediction_result_is_least_argmax
    (empty_score nachi_score ngao_score : Nat) :
    get_prediction_result empty_score nachi_score ngao_score =
      specLeastArgmax empty_score nachi_score ngao_score := by
  exact argmax3_eq_specLeastArgmax empty_score nachi_score ngao_score

/-! ## Quantization bit-flip (decode_jpg, int8 input remap) -/

/-- Embedding of the elementwise remap `data[i] ^= 0x80` applied by
`decode_jpg` to every byte of the input tensor when the tensor type is
`kTfLiteInt8`. -/
def flipByte (b : Nat) : Nat := b ^^^ 128

/-- Reinterpretation of a byte value (0..255) as a signed `int8`, the
reading the model applies to the flipped tensor contents. -/
def toInt8 (b : Nat) : Int := if b < 128 then (b : Int) else (b : Int) - 256

theorem flipByte_flipByte (b : Nat) : flipByte (flipByte b) = b := by
  unfold flipByte
  exact Nat.xor_cancel_right 128 b

set_option maxRecDepth 4096 in
theorem toInt8_flipByte (b : Nat) (hb : b < 256) :
    toInt8 (flipByte b) = (b : Int) - 128 := by
  revert hb
  revert b
  decide

/-- C4: the quantization bit-flip `b XOR 0x80` is self-inverse on whole
buffers, strictly order-preserving from the unsigned range [0,255] read
as signed `int8`, and maps [0,255] onto the full signed range
[-128,127]. -/
theorem flipByte_self_inverse_and_order_preserving :
    (∀ buf : List Nat, (buf.map flipByte).map flipByte = buf) ∧
    (∀ a b : Nat, a < b → b < 256 →
      toInt8 (flipByte a) < toInt8 (flipByte b)) ∧
    (∀ b : Nat, b < 256 →
      -128 ≤ toInt8 (flipByte b) ∧ toInt8 (flipByte b) ≤ 127) ∧
    (∀ v : Int, -128 ≤ v → v ≤ 127 →
      ∃ b : Nat, b < 256 ∧ toInt8 (flipByte b) = v) := by
  refine ⟨?_, ?_, ?_, ?_⟩
  · intro buf
    rw [List.map_map]
    have h : flipByte ∘ flipByte = id := by
      funext b
      exact flipByte_flipByte b
    rw [h, List.map_id]
  · intro a b hab hb
    rw [toInt8_flipByte a (lt_trans hab hb), toInt8_flipByte b hb]
    omega
  · intro b hb
    rw [toInt8_flipByte b hb]
    omega
  · intro v hv1 hv2
    refine ⟨(v + 128).toNat, by omega, ?_⟩
    rw [toInt8_flipByte _ (by omega)]
    omega

/-- Witness for C4 at concrete bytes: 3 < 200 is mapped to
-125 < 72 in the signed reading, and -5 is hit by some byte. -/
theorem flipByte_order_witness :
    (3 : Nat) < 200 ∧ (200 : Nat) < 256 ∧
      toInt8 (flipByte 3) < toInt8 (flipByte 200) ∧
      (∃ b : Nat, b < 256 ∧ toInt8 (flipByte b) = -5) := by
  refine ⟨by decide, by decide, ?_, ?_⟩
  · exact flipByte_self_inverse_and_order_preserving.2.1 3 200 (by decide)
      (by decide)
  · exact flipByte_self_inverse_and_order_preserving.2.2.2 (-5) (by decide)
      (by decide)

/-! ## Sliding majority-vote smoother (decide_state without USE_EMA) -/

/-- Size of the circular prediction buffer, from the header
(`constexpr size_t PREDICTION_HISTORY_SIZE = 7`). -/
def PREDICTION_HISTORY_SIZE : Nat := 7

/-- Mutable smoother state of the majority-vote variant: the
`prediction_history` circular buffer and the `last_index` write
cursor. -/
structure MVState where
  prediction_history : List Nat
  last_index : Nat
deriving DecidableEq

/-- Initial smoother state: `uint8_t prediction_history[W] = {0}` and
`int last_index{0}`. The window size `W` is kept as a parameter; the
deployed constant is `PREDICTION_HISTORY_SIZE`. -/
def initMV (W : Nat) : MVState := ⟨List.replicate W 0, 0⟩

/-- History-update half of `decide_state`: write the new class at
`last_index`, advance the cursor, wrap at `W`. -/
def mvUpdate (W : Nat) (s : MVState) (max_index : Nat) : MVState :=
  let h := s.prediction_history.set s.last_index max_index
  let l := s.last_index + 1
  ⟨h, if l = W then 0 else l⟩

/-- Embedding of the `uint8_t class_counts[3]` tally: occurrences of a
class in the buffer, reduced mod 256 as the C++ counter is a byte. -/
def class_counts (h : List Nat) (c : Nat) : Nat := (h.count c) % 256

/-- Stable class computed from a smoother state: argmax scan over the
three class counts of the buffer. -/
def mvOut (s : MVState) : Nat :=
  argmax3 (class_counts s.prediction_history 0)
    (class_counts s.prediction_history 1)
    (class_counts s.prediction_history 2)

/-- Embedding of `LitterRobotPresenceDetector::decide_state`
(majority-vote branch): record the raw class, then return the class
with the highest count, ties to the lowest index. Returns the stable
class together with the updated smoother state. -/
def decide_state (W : Nat) (s : MVState) (max_index : Nat) : Nat × MVState :=
  let s' := mvUpdate W s max_index
  (mvOut s', s')

/-- Final smoother state after feeding a whole input sequence. -/
def mvRun (W : Nat) (xs : List Nat) (s : MVState) : MVState :=
  xs.foldl (mvUpdate W) s

/-- All stable outputs returned by successive `decide_state` calls on an
input sequence, together with the final state. -/
def mvProcess (W : Nat) : MVState → List Nat → List Nat × MVState
  | s, [] => ([], s)
  | s, c :: rest =>
      let p := decide_state W s c
      let r := mvProcess W p.2 rest
      (p.1 :: r.1, r.2)

/-- Specification-side mode: the most frequent class index of a sample
list, ties broken toward the lowest class index. -/
def specMode (l : List Nat) : Nat :=
  specLeastArgmax (l.count 0) (l.count 1) (l.count 2)

/-- The circular buffer read in age order, oldest sample first: the
slot about to be overwritten (`last_index`) holds the oldest sample. -/
def mvWindow (s : MVState) : List Nat :=
  s.prediction_history.drop s.last_index ++ s.prediction_history.take s.last_index

theorem mvUpdate_length (W : Nat) (s : MVState) (c : Nat) :
    (mvUpdate W s c).prediction_history.length = s.prediction_history.length := by
  simp [mvUpdate]

theorem mvUpdate_last_lt (W : Nat) (s : MVState) (c : Nat)
    (hl : s.last_index < W) : (mvUpdate W s c).last_index < W := by
  simp only [mvUpdate]
  split <;> omega

theorem mvWindow_length (s : MVState) (hl : s.last_index < s.prediction_history.length) :
    (mvWindow s).length = s.prediction_history.length := by
  simp [mvWindow]
  omega

theorem count_mvWindow (s : MVState) (c : Nat) :
    (mvWindow s).count c = s.prediction_history.count c := by
  unfold mvWindow
  rw [List.count_append, Nat.add_comm, ← List.count_append,
    List.take_append_drop]

theorem mvWindow_update (W : Nat) (s : MVState) (c : Nat)
    (hlen : s.prediction_history.length = W) (hl : s.last_index < W) :
    mvWindow (mvUpdate W s c) = (mvWindow s).drop 1 ++ [c] := by
  obtain ⟨h, l⟩ := s
  simp only at hlen hl
  unfold mvWindow mvUpdate
  dsimp only
  rw [List.set_eq_take_cons_drop c (by omega)]
  have hlt : (List.take l h).length = l := by
    rw [List.length_take]
    omega
  have hld : (List.drop l h).length = W - l := by
    rw [List.length_drop, hlen]
  by_cases hW : l + 1 = W
  · rw [if_pos hW]
    have hdrop1 : List.drop (l + 1) h = [] := List.drop_eq_nil_of_le (by omega)
    rw [hdrop1, List.drop_zero, List.take_zero, List.append_nil,
      List.drop_append_eq_append_drop, hld]
    have h1 : List.drop 1 (List.drop l h) = [] := by
      rw [List.drop_drop]
      exact List.drop_eq_nil_of_le (by omega)
    rw [h1]
    have h2 : 1 - (W - l) = 0 := by omega
    rw [h2, List.drop_zero, List.nil_append]
  · rw [if_neg hW]
    have hdropside :
        List.drop (l + 1) (List.take l h ++ c :: List.drop (l + 1) h) =
          List.drop (l + 1) h := by
      rw [List.drop_append_eq_append_drop, hlt]
      have h1 : List.drop (l + 1) (List.take l h) = [] :=
        List.drop_eq_nil_of_le (by omega)
      have h2 : l + 1 - l = 1 := by omega
      rw [h1, h2, List.nil_append, List.drop_succ_cons, List.drop_zero]
    have htakeside :
        List.take (l + 1) (List.take l h ++ c :: List.drop (l + 1) h) =
          List.take l h ++ [c] := by
      rw [List.take_append_eq_append_take, hlt]
      have h1 : List.take (l + 1) (List.take l h) = List.take l h := by
        rw [List.take_take]
        congr 1
        omega
      have h2 : l + 1 - l = 1 := by omega
      rw [h1, h2, List.take_succ_cons, List.take_zero]
    rw [hdropside, htakeside,
      List.drop_append_eq_append_drop, hld]
    have h1 : List.drop 1 (List.drop l h) = List.drop (l + 1) h := by
      rw [List.drop_drop]
    have h2 : 1 - (W - l) = 0 := by omega
    rw [h1, h2, List.drop_zero, List.append_assoc]

theorem mvRun_nil (W : Nat) (s : MVState) : mvRun W [] s = s := rfl

theorem mvRun_cons (W : Nat) (c : Nat) (xs : List Nat) (s : MVState) :
    mvRun W (c :: xs) s = mvRun W xs (mvUpdate W s c) := rfl

theorem mvRun_inv (W : Nat) (xs : List Nat) (s : MVState)
    (hlen : s.prediction_history.length = W) (hl : s.last_index < W) :
    (mvRun W xs s).prediction_history.length = W ∧
      (mvRun W xs s).last_index < W := by
  induction xs generalizing s with
  | nil => exact ⟨hlen, hl⟩
  | cons c rest ih =>
      rw [mvRun_cons]
      exact ih (mvUpdate W s c)
        (by rw [mvUpdate_length, hlen]) (mvUpdate_last_lt W s c hl)

theorem mvWindow_run (W : Nat) (xs : List Nat) (s : MVState)
    (hlen : s.prediction_history.length = W) (hl : s.last_index < W) :
    mvWindow (mvRun W xs s) = (mvWindow s ++ xs).drop xs.length := by
  induction xs generalizing s with
  | nil =>
      rw [mvRun_nil, List.append_nil, List.length_nil, List.drop_zero]
  | cons c rest ih =>
      rw [mvRun_cons,
        ih (mvUpdate W s c) (by rw [mvUpdate_length, hlen])
          (mvUpdate_last_lt W s c hl),
        mvWindow_update W s c hlen hl]
      have hw : (mvWindow s).length = W := by
        unfold mvWindow
        rw [List.length_append, List.length_take, List.length_drop, hlen]
        omega
      have hsplit : mvWindow s ++ c :: rest = (mvWindow s ++ [c]) ++ rest := by
        rw [List.append_assoc, List.singleton_append]
      have hstep :
          List.drop 1 (mvWindow s ++ [c]) = List.drop 1 (mvWindow s) ++ [c] := by
        rw [List.drop_append_eq_append_drop]
        have h0 : 1 - (mvWindow s).length = 0 := by omega
        rw [h0, List.drop_zero]
      have hX : List.drop 1 (mvWindow s ++ [c] ++ rest) =
          List.drop 1 (mvWindow s) ++ [c] ++ rest := by
        rw [List.drop_append_eq_append_drop]
        have h0 : 1 - (mvWindow s ++ [c]).length = 0 := by
          rw [List.length_append]
          omega
        rw [hstep, h0, List.drop_zero]
      rw [hsplit, List.length_cons, Nat.add_comm rest.length 1,
        ← List.drop_drop, hX]

theorem mvProcess_snd (W : Nat) (s : MVState) (xs : List Nat) :
    (mvProcess W s xs).2 = mvRun W xs s := by
  induction xs generalizing s with
  | nil => rfl
  | cons c rest ih =>
      rw [mvRun_cons]
      exact ih (mvUpdate W s c)

theorem mvProcess_getLast (W : Nat) (s : MVState) (xs : List Nat)
    (hne : xs ≠ []) :
    (mvProcess W s xs).1.getLast? = some (mvOut (mvRun W xs s)) := by
  induction xs generalizing s with
  | nil => exact absurd rfl hne
  | cons c rest ih =>
      rcases rest with _ | ⟨d, rest'⟩
      · rfl
      · have h1 : (mvProcess W s (c :: d :: rest')).1 =
            (decide_state W s c).1 ::
              (mvProcess W (decide_state W s c).2 (d :: rest')).1 := rfl
        have h2 : (mvProcess W (decide_state W s c).2 (d :: rest')).1 =
            (decide_state W (decide_state W s c).2 d).1 ::
              (mvProcess W (decide_state W (decide_state W s c).2 d).2 rest').1 := rfl
        rw [h1, h2, List.getLast?_cons_cons, ← h2, mvRun_cons]
        have h3 : mvUpdate W s c = (decide_state W s c).2 := rfl
        rw [h3]
        exact ih (decide_state W s c).2 (by simp)

/-- C1: for every input sequence over classes {0,1,2} fed to the
majority-vote smoother with window `W` (0 < W < 256; the deployed value
is `PREDICTION_HISTORY_SIZE = 7`), once at least `W` samples have been
recorded the stable output returned by the last `decide_state` call
equals the mode of the last `W` recorded samples, ties broken toward
the lowest class index. -/
theorem decide_state_majority_mode (W : Nat) (xs : List Nat)
    (hW : 0 < W) (hW2 : W < 256) (hlen : W ≤ xs.length)
    (_hcls : ∀ x ∈ xs, x < 3) :
    (mvProcess W (initMV W) xs).1.getLast? =
      some (specMode (xs.drop (xs.length - W))) := by
  have hne : xs ≠ [] := by
    intro hnil
    rw [hnil] at hlen
    simp at hlen
    omega
  rw [mvProcess_getLast W (initMV W) xs hne]
  congr 1
  have hinit_len : (initMV W).prediction_history.length = W := by
    simp [initMV]
  have hinit_last : (initMV W).last_index < W := hW
  have hwin : mvWindow (mvRun W xs (initMV W)) =
      (mvWindow (initMV W) ++ xs).drop xs.length :=
    mvWindow_run W xs (initMV W) hinit_len hinit_last
  have hwin_init : mvWindow (initMV W) = List.replicate W 0 := by
    unfold mvWindow initMV
    simp
  have hdrop : (List.replicate W 0 ++ xs).drop xs.length =
      xs.drop (xs.length - W) := by
    rw [List.drop_append_eq_append_drop, List.length_replicate]
    have h1 : List.drop xs.length (List.replicate W 0) = [] :=
      List.drop_eq_nil_of_le (by rw [List.length_replicate]; omega)
    rw [h1, List.nil_append]
  rw [hwin_init, hdrop] at hwin
  set t := xs.drop (xs.length - W) with ht
  have htlen : t.length = W := by
    rw [ht, List.length_drop]
    omega
  have hcount : ∀ c : Nat,
      (mvRun W xs (initMV W)).prediction_history.count c = t.count c := by
    intro c
    rw [← count_mvWindow, hwin]
  have hmod : ∀ c : Nat, t.count c % 256 = t.count c := by
    intro c
    have := List.count_le_length c t
    rw [htlen] at this
    omega
  unfold mvOut class_counts specMode
  rw [hcount 0, hcount 1, hcount 2, hmod 0, hmod 1, hmod 2]
  exact argmax3_eq_specLeastArgmax (t.count 0) (t.count 1) (t.count 2)

/-- Witness for C1 at the deployed window `W = 7` and a concrete
9-sample sequence: the last 7 samples are [1,1,2,1,0,0,1], whose mode
is class 1, and the smoother's last output is 1. -/
theorem decide_state_majority_mode_witness :
    0 < 7 ∧ 7 < 256 ∧ 7 ≤ ([2, 0, 1, 1, 2, 1, 0, 0, 1] : List Nat).length ∧
      (∀ x ∈ ([2, 0, 1, 1, 2, 1, 0, 0, 1] : List Nat), x < 3) ∧
      (mvProcess 7 (initMV 7) [2, 0, 1, 1, 2, 1, 0, 0, 1]).1.getLast? =
        some (specMode (([2, 0, 1, 1, 2, 1, 0, 0, 1] : List Nat).drop
          ([2, 0, 1, 1, 2, 1, 0, 0, 1].length - 7))) := by
  refine ⟨by decide, by decide, by decide, by decide, ?_⟩
  exact decide_state_majority_mode 7 [2, 0, 1, 1, 2, 1, 0, 0, 1]
    (by decide) (by decide) (by decide) (by decide)

/-- C7: with two live classes (class 0 = empty, class 1 = the occupied
class the scenario calls "present") and a majority window of 3, feeding
the input sequence [present, present, empty] = [1, 1, 0] through the
majority-vote smoother from its initial state yields stable output
class 1 ("present", 2 votes of 3). The deployed window constant is
`PREDICTION_HISTORY_SIZE = 7`; the smoother algorithm is embedded
parametrically in the window size, and the scenario instantiates it at
3. -/
theorem majority_scenario_present :
    (mvProcess 3 (initMV 3) [1, 1, 0]).1.getLast? = some 1 ∧
      PREDICTION_HISTORY_SIZE = 7 := by
  constructor
  · rfl
  · rfl

/-! ## EMA smoother (decide_state with USE_EMA) -/

/-- Default smoothing factor, from the header (`double ema_alpha{0.2}`).
The C++ `double` accumulators are modelled as exact rationals. -/
def ema_alpha : ℚ := 0.2

/-- Per-cycle contribution vector: `new_values[3] = {0}` then
`new_values[max_index] = 1`. -/
def new_values (max_index : Nat) : Fin 3 → ℚ :=
  fun i => if i.val = max_index then 1 else 0

/-- One EMA update of the `current_predictions` accumulators:
`acc = alpha * contribution + (1 - alpha) * acc` for every class. -/
def emaStep (acc : Fin 3 → ℚ) (max_index : Nat) : Fin 3 → ℚ :=
  fun i => ema_alpha * new_values max_index i + (1 - ema_alpha) * acc i

/-- The same argmax scan as `argmax3`, over the rational accumulators
(the `#else` branch of `decide_state`). -/
def argmax3Q (c0 c1 c2 : ℚ) : Nat :=
  if c2 > (if c1 > c0 then c1 else c0) then 2
  else if c1 > c0 then 1 else 0

/-- Embedding of `LitterRobotPresenceDetector::decide_state` (EMA
branch): update every accumulator, then return the class with the
highest accumulator, ties to the lowest index. -/
def decide_state_ema (acc : Fin 3 → ℚ) (max_index : Nat) :
    Nat × (Fin 3 → ℚ) :=
  let acc' := emaStep acc max_index
  (argmax3Q (acc' 0) (acc' 1) (acc' 2), acc')

/-- Accumulators after `n` cycles of the constant class `c`, starting
from the all-zero initial state `double current_predictions[3] =
{0.0, 0.0, 0.0}`. -/
def emaRunConst (c : Nat) : Nat → Fin 3 → ℚ
  | 0 => fun _ => 0
  | n + 1 => emaStep (emaRunConst c n) c

theorem emaRunConst_eq (c : Nat) (n : Nat) (i : Fin 3) :
    emaRunConst c n i = if i.val = c then 1 - (4 / 5 : ℚ) ^ n else 0 := by
  induction n with
  | zero => simp [emaRunConst]
  | succ n ih =>
      show emaStep (emaRunConst c n) c i = _
      rw [emaStep, ih]
      by_cases h : i.val = c
      · rw [if_pos h, if_pos h]
        unfold new_values ema_alpha
        rw [if_pos h]
        ring
      · rw [if_neg h, if_neg h]
        unfold new_values ema_alpha
        rw [if_neg h]
        ring

theorem argmax3Q_first (p : ℚ) (hp : 0 < p) : argmax3Q p 0 0 = 0 := by
  unfold argmax3Q
  split_ifs <;> first | rfl | linarith

theorem argmax3Q_second (p : ℚ) (hp : 0 < p) : argmax3Q 0 p 0 = 1 := by
  unfold argmax3Q
  split_ifs <;> first | rfl | linarith

theorem argmax3Q_third (p : ℚ) (hp : 0 < p) : argmax3Q 0 0 p = 2 := by
  unfold argmax3Q
  split_ifs <;> first | rfl | linarith

/-- C6: feeding the EMA smoother (alpha = 0.2) a constant class `c`
from the all-zero state, `acc_c` strictly increases every cycle and
converges toward 1, every other accumulator stays 0 (hence
non-increasing toward 0), `acc_c` strictly exceeds every other
accumulator from the very first cycle, and from that first cycle on the
returned stable class is `c`. -/
theorem ema_constant_class (c : Fin 3) :
    (∀ n : Nat, emaRunConst c.val n c < emaRunConst c.val (n + 1) c) ∧
    (∀ n : Nat, ∀ i : Fin 3, i ≠ c → emaRunConst c.val n i = 0) ∧
    (∀ ε : ℚ, 0 < ε → ∃ N : Nat, ∀ n : Nat, N ≤ n →
      1 - emaRunConst c.val n c < ε) ∧
    (∀ i : Fin 3, i ≠ c →
      emaRunConst c.val 1 i < emaRunConst c.val 1 c) ∧
    (∀ n : Nat, (decide_state_ema (emaRunConst c.val n) c.val).1 = c.val) := by
  have hq0 : (0 : ℚ) ≤ 4 / 5 := by norm_num
  have hq1 : (4 / 5 : ℚ) < 1 := by norm_num
  have hpow1 : ∀ n : Nat, (4 / 5 : ℚ) ^ (n + 1) < 1 :=
    fun n => pow_lt_one₀ hq0 hq1 (Nat.succ_ne_zero n)
  have hacc : ∀ n : Nat, emaRunConst c.val n c = 1 - (4 / 5 : ℚ) ^ n := by
    intro n
    rw [emaRunConst_eq, if_pos rfl]
  have hother : ∀ n : Nat, ∀ i : Fin 3, i ≠ c → emaRunConst c.val n i = 0 := by
    intro n i hi
    rw [emaRunConst_eq, if_neg]
    intro hval
    exact hi (Fin.ext hval)
  refine ⟨?_, hother, ?_, ?_, ?_⟩
  · intro n
    rw [hacc, hacc]
    have : (4 / 5 : ℚ) ^ (n + 1) < (4 / 5 : ℚ) ^ n :=
      pow_lt_pow_right_of_lt_one₀ (by norm_num) hq1 (Nat.lt_succ_self n)
    linarith
  · intro ε hε
    obtain ⟨N, hN⟩ := exists_pow_lt_of_lt_one hε hq1
    refine ⟨N, fun n hn => ?_⟩
    rw [hacc]
    have hmono : (4 / 5 : ℚ) ^ n ≤ (4 / 5 : ℚ) ^ N :=
      pow_le_pow_of_le_one hq0 (le_of_lt hq1) hn
    linarith
  · intro i hi
    rw [hother 1 i hi, hacc]
    have := hpow1 0
    linarith
  · intro n
    have hrw : (decide_state_ema (emaRunConst c.val n) c.val).1 =
        argmax3Q (emaRunConst c.val (n + 1) 0) (emaRunConst c.val (n + 1) 1)
          (emaRunConst c.val (n + 1) 2) := rfl
    have hp : 0 < 1 - (4 / 5 : ℚ) ^ (n + 1) := by
      have := hpow1 n
      linarith
    rw [hrw]
    fin_cases c
    · rw [emaRunConst_eq, emaRunConst_eq, emaRunConst_eq]
      norm_num
      exact argmax3Q_first _ hp
    · rw [emaRunConst_eq, emaRunConst_eq, emaRunConst_eq]
      norm_num
      exact argmax3Q_second _ hp
    · rw [emaRunConst_eq, emaRunConst_eq, emaRunConst_eq]
      norm_num
      exact argmax3Q_third _ hp

/-- Witness for C6 at class c = 1 (scenario B, class "a"): after the
first frame the returned stable class is already 1, and the
accumulator gap closes below 1/2 from some cycle on. -/
theorem ema_constant_class_witness :
    (decide_state_ema (emaRunConst 1 0) 1).1 = 1 ∧
      (0 : ℚ) < 1 / 2 ∧
      (∃ N : Nat, ∀ n : Nat, N ≤ n → 1 - emaRunConst 1 n 1 < 1 / 2) := by
  refine ⟨?_, by norm_num, ?_⟩
  · exact (ema_constant_class 1).2.2.2.2 0
  · exact (ema_constant_class 1).2.2.1 (1 / 2) (by norm_num)

/-! ## Decode and quantize adapter (decode_jpg, direct-to-tensor variant) -/

/-- Numeric type tag of a tensor (`TfLiteType`), restricted to the two
cases the component distinguishes. -/
inductive TfLiteType where
  | int8
  | uint8
deriving DecidableEq

/-- The model input tensor: byte capacity (`input->bytes`), current
contents of the tensor memory, and numeric type (`input->type`). -/
structure Tensor where
  bytes : Nat
  data : List Nat
  ttype : TfLiteType
deriving DecidableEq

/-- A captured camera frame (`camera_fb_t`): dimensions and compressed
payload. -/
structure Frame where
  width : Nat
  height : Nat
  buf : List Nat
deriving DecidableEq

/-- Embedding of `LitterRobotPresenceDetector::decode_jpg`. The
external `esp_jpeg_decode` call is a parameter `jpeg` taking the
compressed payload and the output capacity and returning a success flag
together with the bytes it wrote into the output buffer. The function
first validates `required_size = width * height * 3` against
`input->bytes` and returns `false` with the tensor untouched on
overflow; after a successful decode it applies the `XOR 0x80` remap
when the tensor type is signed `int8`. -/
def decode_jpg (jpeg : List Nat → Nat → Bool × List Nat) (rb : Frame)
    (input : Tensor) : Bool × Tensor :=
  let required_size := rb.width * rb.height * 3
  if required_size > input.bytes then (false, input)
  else
    let r := jpeg rb.buf input.bytes
    let written : Tensor := { input with data := r.2 }
    if r.1 = false then (false, written)
    else if input.ttype = TfLiteType.int8 then
      (true, { written with data := written.data.map flipByte })
    else (true, written)

/-- C3: whenever the required decoded size `width * height * 3` exceeds
the input tensor's byte capacity, `decode_jpg` fails before invoking
the decoder: it reports failure and the tensor memory is exactly as it
was (no bytes written). -/
theorem decode_jpg_oversize_no_write
    (jpeg : List Nat → Nat → Bool × List Nat) (rb : Frame) (input : Tensor)
    (hsize : rb.width * rb.height * 3 > input.bytes) :
    decode_jpg jpeg rb input = (false, input) := by
  unfold decode_jpg
  rw [if_pos hsize]

/-- Witness for C3: a 2x2 frame needs 12 bytes, which overflows a
10-byte tensor, so decode fails and the tensor contents are kept. -/
theorem decode_jpg_oversize_no_write_witness :
    (2 * 2 * 3 > 10) ∧
      decode_jpg (fun _ _ => (true, [7])) ⟨2, 2, [1, 2, 3]⟩
          ⟨10, [9, 9], TfLiteType.uint8⟩ =
        (false, ⟨10, [9, 9], TfLiteType.uint8⟩) := by
  refine ⟨by decide, ?_⟩
  exact decode_jpg_oversize_no_write (fun _ _ => (true, [7])) ⟨2, 2, [1, 2, 3]⟩
    ⟨10, [9, 9], TfLiteType.uint8⟩ (by decide)

/-! ## Worker cycle, pending-result flag and polling loop (part_000) -/

/-- Outcome of one iteration of `inference_task` as seen by the
component: no frame acquired, decode failure, engine `Invoke` failure,
or a successful inference yielding the three output-tensor scores. -/
inductive CycleOutcome where
  | noFrame
  | decodeFail
  | invokeFail
  | ok (empty_score nachi_score ngao_score : Nat)
deriving DecidableEq

/-- Component state shared across cycles: the cached pending label
(`pending_state_`, a class index, `none` for the initial empty string),
the atomic `result_ready_` flag, and the smoother state of both
variants (majority-vote buffer and EMA accumulators). -/
structure DetState where
  pending_state_ : Option Nat
  result_ready_ : Bool
  mv : MVState
  current_predictions : Fin 3 → ℚ

/-- One iteration of `LitterRobotPresenceDetector::inference_task`
after frame acquisition: on any failure the body only logs and
continues, touching no state; on success it extracts the prediction,
runs `decide_state` (majority-vote or EMA branch according to
`USE_EMA`), caches the stable label and raises `result_ready_`. -/
def inference_cycle (useEma : Bool) (s : DetState) (o : CycleOutcome) :
    DetState :=
  match o with
  | .noFrame => s
  | .decodeFail => s
  | .invokeFail => s
  | .ok a b c =>
      let prediction_index := get_prediction_result a b c
      if useEma then
        let r := decide_state_ema s.current_predictions prediction_index
        { s with
          current_predictions := r.2
          pending_state_ := some r.1
          result_ready_ := true }
      else
        let r := decide_state PREDICTION_HISTORY_SIZE s.mv prediction_index
        { s with
          mv := r.2
          pending_state_ := some r.1
          result_ready_ := true }

/-- Embedding of `LitterRobotPresenceDetector::loop` (part_000): if a
result is pending, publish the cached label and clear the flag;
otherwise do nothing. The second component is the label passed to
`publish_state`, when a publish happens. -/
def loop (s : DetState) : DetState × Option (Option Nat) :=
  if s.result_ready_ then
    ({ s with result_ready_ := false }, some s.pending_state_)
  else (s, none)

/-- An execution-trace event: one worker cycle with a given outcome, or
one host-loop poll. -/
inductive Event where
  | cycle (o : CycleOutcome)
  | poll
deriving DecidableEq

/-- Run a trace of events, collecting every label passed to
`publish_state` in order. -/
def runEvents (useEma : Bool) : DetState → List Event → DetState × List (Option Nat)
  | s, [] => (s, [])
  | s, Event.cycle o :: rest => runEvents useEma (inference_cycle useEma s o) rest
  | s, Event.poll :: rest =>
      let r := loop s
      let k := runEvents useEma r.1 rest
      match r.2 with
      | none => k
      | some v => (k.1, v :: k.2)

/-- The cached stable label after each event of a trace. -/
def pendingTrace (useEma : Bool) : DetState → List Event → List (Option Nat)
  | _, [] => []
  | s, e :: rest =>
      let s' := match e with
        | Event.cycle o => inference_cycle useEma s o
        | Event.poll => (loop s).1
      s'.pending_state_ :: pendingTrace useEma s' rest

/-- Component state right after setup: empty pending label, flag down,
zeroed prediction history and zeroed EMA accumulators. -/
def initDetState : DetState :=
  ⟨none, false, initMV PREDICTION_HISTORY_SIZE, fun _ => 0⟩

/-- Number of successful inference cycles in a trace. -/
def countOkCycles (es : List Event) : Nat :=
  es.countP fun e => match e with
    | Event.cycle (CycleOutcome.ok _ _ _) => true
    | _ => false

/-- C2: a cycle in which decode or inference fails leaves the component
state — prediction history and cursor, EMA accumulators, cached pending
label and `result_ready_` flag — exactly as it was, so the stable
output after the failed cycle is the stable output after the previous
cycle. -/
theorem failed_cycle_preserves_state (useEma : Bool) (s : DetState)
    (o : CycleOutcome)
    (h : o = CycleOutcome.decodeFail ∨ o = CycleOutcome.invokeFail) :
    inference_cycle useEma s o = s := by
  rcases h with h | h <;> subst h <;> rfl

/-- Witness for C2: a decode failure right after setup changes
nothing. -/
theorem failed_cycle_preserves_state_witness :
    (CycleOutcome.decodeFail = CycleOutcome.decodeFail ∨
        CycleOutcome.decodeFail = CycleOutcome.invokeFail) ∧
      inference_cycle false initDetState CycleOutcome.decodeFail =
        initDetState := by
  exact ⟨Or.inl rfl,
    failed_cycle_preserves_state false initDetState CycleOutcome.decodeFail
      (Or.inl rfl)⟩

/-- C9: polling `loop` while `result_ready_` is false performs no
publish call and returns the state with every field unchanged. -/
theorem loop_no_result_noop (s : DetState) (h : s.result_ready_ = false) :
    loop s = (s, none) := by
  simp [loop, h]

/-- Witness for C9 at the post-setup state, whose flag is down. -/
theorem loop_no_result_noop_witness :
    initDetState.result_ready_ = false ∧
      loop initDetState = (initDetState, none) :=
  ⟨rfl, loop_no_result_noop initDetState rfl⟩

/-- Concrete trace for C8: two successful cycles classifying the same
class (scores 5,0,0 → class 0), each followed by one poll. -/
def c8Trace : List Event :=
  [Event.cycle (CycleOutcome.ok 5 0 0), Event.poll,
    Event.cycle (CycleOutcome.ok 5 0 0), Event.poll]

/-- Counterexample to C8 as stated: on `c8Trace` the component calls
`publish_state` twice in a row with the same label (class 0), while the
cached stable label equals class 0 after every event — it never changed
and changed back in between. `result_ready_` is raised on every
successful cycle, not only on transitions, so publishes are once per
successful cycle, not once per stable-label transition. -/
theorem publish_repeats_label_without_transition :
    (runEvents false initDetState c8Trace).2 = [some 0, some 0] ∧
      pendingTrace false initDetState c8Trace =
        [some 0, some 0, some 0, some 0] := by
  constructor <;> rfl

/-- C8 amended: `publish_state` is called at most once per pending
result — every poll publishes only when `result_ready_` is up and
clears it, so along any trace the number of publish calls never
exceeds the number of successful inference cycles (plus one for a
result already pending at the start); consecutive publishes may carry
the same label. -/
theorem publish_at_most_once_per_result (useEma : Bool) (es : List Event)
    (s : DetState) :
    (runEvents useEma s es).2.length ≤
      countOkCycles es + (if s.result_ready_ then 1 else 0) := by
  induction es generalizing s with
  | nil =>
      simp [runEvents, countOkCycles]
  | cons e rest ih =>
      cases e with
      | cycle o =>
          cases o with
          | noFrame =>
              have h1 : runEvents useEma s (Event.cycle CycleOutcome.noFrame :: rest) =
                  runEvents useEma s rest := rfl
              have h2 : countOkCycles (Event.cycle CycleOutcome.noFrame :: rest) =
                  countOkCycles rest := by
                simp [countOkCycles, List.countP_cons]
              rw [h1, h2]
              exact ih s
          | decodeFail =>
              have h1 : runEvents useEma s (Event.cycle CycleOutcome.decodeFail :: rest) =
                  runEvents useEma s rest := rfl
              have h2 : countOkCycles (Event.cycle CycleOutcome.decodeFail :: rest) =
                  countOkCycles rest := by
                simp [countOkCycles, List.countP_cons]
              rw [h1, h2]
              exact ih s
          | invokeFail =>
              have h1 : runEvents useEma s (Event.cycle CycleOutcome.invokeFail :: rest) =
                  runEvents useEma s rest := rfl
              have h2 : countOkCycles (Event.cycle CycleOutcome.invokeFail :: rest) =
                  countOkCycles rest := by
                simp [countOkCycles, List.countP_cons]
              rw [h1, h2]
              exact ih s
          | ok a b c =>
              have h1 : runEvents useEma s (Event.cycle (CycleOutcome.ok a b c) :: rest) =
                  runEvents useEma (inference_cycle useEma s (CycleOutcome.ok a b c)) rest := rfl
              have h2 : countOkCycles (Event.cycle (CycleOutcome.ok a b c) :: rest) =
                  countOkCycles rest + 1 := by
                simp [countOkCycles, List.countP_cons]
              have hready : (inference_cycle useEma s (CycleOutcome.ok a b c)).result_ready_ = true := by
                unfold inference_cycle
                by_cases hu : useEma <;> simp [hu]
              have := ih (inference_cycle useEma s (CycleOutcome.ok a b c))
              rw [hready] at this
              simp only [if_true] at this
              rw [h1, h2]
              split <;> omega
      | poll =>
          by_cases h : s.result_ready_
          · have hloop : loop s = ({ s with result_ready_ := false },
                some s.pending_state_) := by
              simp [loop, h]
            have h1 : runEvents useEma s (Event.poll :: rest) =
                ((runEvents useEma { s with result_ready_ := false } rest).1,
                  s.pending_state_ ::
                    (runEvents useEma { s with result_ready_ := false } rest).2) := by
              show (match (loop s).2 with
                | none => runEvents useEma (loop s).1 rest
                | some v => ((runEvents useEma (loop s).1 rest).1,
                    v :: (runEvents useEma (loop s).1 rest).2)) = _
              rw [hloop]
            have h2 : countOkCycles (Event.poll :: rest) = countOkCycles rest := by
              simp [countOkCycles, List.countP_cons]
            have := ih { s with result_ready_ := false }
            simp at this
            rw [h1, h2, h]
            simp only [List.length_cons, if_true]
            omega
          · have hb : s.result_ready_ = false := by
              revert h
              cases s.result_ready_ <;> simp
            have hloop : loop s = (s, none) := loop_no_result_noop s hb
            have h1 : runEvents useEma s (Event.poll :: rest) =
                runEvents useEma s rest := by
              show (match (loop s).2 with
                | none => runEvents useEma (loop s).1 rest
                | some v => ((runEvents useEma (loop s).1 rest).1,
                    v :: (runEvents useEma (loop s).1 rest).2)) = _
              rw [hloop]
            have h2 : countOkCycles (Event.poll :: rest) = countOkCycles rest := by
              simp [countOkCycles, List.countP_cons]
            rw [h1, h2, hb]
            have := ih s
            rw [hb] at this
            simpa using this

/-! ## Bounds invariant of the smoother state (C10) -/

/-- C10: a `decide_state` call whose argument is a class index in
{0,1,2} preserves the smoother-state invariant — the buffer keeps its
`PREDICTION_HISTORY_SIZE = 7` length, the cursor stays in
[0, 7) (non-negativity is inherent to the `Nat` model of the C++
`int`), and every buffer entry stays in {0,1,2} — and both
`get_prediction_result` and `decide_state` return class indices in
{0,1,2}, so `CLASSES[...]` lookups and `class_counts` indexing stay in
bounds. -/
theorem decide_state_preserves_invariant (s : MVState) (c : Nat)
    (hc : c < 3)
    (hlen : s.prediction_history.length = PREDICTION_HISTORY_SIZE)
    (hl : s.last_index < PREDICTION_HISTORY_SIZE)
    (hentries : ∀ x ∈ s.prediction_history, x < 3) :
    (decide_state PREDICTION_HISTORY_SIZE s c).2.prediction_history.length =
        PREDICTION_HISTORY_SIZE ∧
      (decide_state PREDICTION_HISTORY_SIZE s c).2.last_index <
        PREDICTION_HISTORY_SIZE ∧
      (∀ x ∈ (decide_state PREDICTION_HISTORY_SIZE s c).2.prediction_history,
        x < 3) ∧
      (decide_state PREDICTION_HISTORY_SIZE s c).1 < 3 ∧
      (∀ a b c' : Nat, get_prediction_result a b c' < 3) := by
  refine ⟨?_, ?_, ?_, ?_, ?_⟩
  · show (mvUpdate PREDICTION_HISTORY_SIZE s c).prediction_history.length = _
    rw [mvUpdate_length]
    exact hlen
  · exact mvUpdate_last_lt PREDICTION_HISTORY_SIZE s c hl
  · intro x hx
    have hx' : x ∈ s.prediction_history.set s.last_index c := hx
    rcases List.mem_or_eq_of_mem_set hx' with h | h
    · exact hentries x h
    · omega
  · exact argmax3_lt_three _ _ _
  · intro a b c'
    exact argmax3_lt_three a b c'

/-- Witness for C10 at the post-setup smoother state and class 2. -/
theorem decide_state_preserves_invariant_witness :
    (2 < 3 ∧
        (initMV PREDICTION_HISTORY_SIZE).prediction_history.length =
          PREDICTION_HISTORY_SIZE ∧
        (initMV PREDICTION_HISTORY_SIZE).last_index <
          PREDICTION_HISTORY_SIZE ∧
        (∀ x ∈ (initMV PREDICTION_HISTORY_SIZE).prediction_history, x < 3)) ∧
      (decide_state PREDICTION_HISTORY_SIZE (initMV PREDICTION_HISTORY_SIZE)
            2).2.prediction_history.length = PREDICTION_HISTORY_SIZE ∧
        (decide_state PREDICTION_HISTORY_SIZE (initMV PREDICTION_HISTORY_SIZE)
            2).2.last_index < PREDICTION_HISTORY_SIZE ∧
        (∀ x ∈ (decide_state PREDICTION_HISTORY_SIZE
            (initMV PREDICTION_HISTORY_SIZE) 2).2.prediction_history, x < 3) ∧
        (decide_state PREDICTION_HISTORY_SIZE (initMV PREDICTION_HISTORY_SIZE)
            2).1 < 3 ∧
        (∀ a b c' : Nat, get_prediction_result a b c' < 3) := by
  refine ⟨⟨by decide, by decide, by decide, by decide⟩, ?_⟩
  exact decide_state_preserves_invariant (initMV PREDICTION_HISTORY_SIZE) 2
    (by decide) (by decide) (by decide) (by decide)
